import Mathlib

/-!
Shallow embedding of the `translate` chat-bot add-on (a nonebot plugin,
`src/__init__.py`).  Texts are lists of Unicode characters (`List Char`),
mirroring Python strings.  Python's float comparisons of character ratios
(`>= 0.8`, `>= 0.6`) are modelled exactly over `ℚ`; Python's `str.isdigit`
is modelled by `Char.isDigit` and `str.strip` by dropping whitespace from
both ends.  The automatic message handler is modelled as a pure function
from a message event and the settings/blacklist snapshot to an `Action`
(the decision), the script converter as an opaque function parameter, and
the translation HTTP round trip as a function of an ambient `NetResult`
describing the remote service's outcome, paired with a flag recording
whether the outbound request was attempted.
-/

namespace Translate

/-- Test for the Hiragana/Katakana block U+3040 to U+30FF. -/
def kanaChar (c : Char) : Bool := '぀' ≤ c && c ≤ 'ヿ'

/-- Test for the CJK Unified Ideographs block U+4E00 to U+9FA5. -/
def cjkChar (c : Char) : Bool := '一' ≤ c && c ≤ '龥'

/-- Count of non-digit characters: `sum(1 for char in text if not char.isdigit())`. -/
def nonDigitCount (text : List Char) : Nat :=
  (text.filter (fun c => !c.isDigit)).length

/-- Count of characters that are neither digits nor CJK ideographs:
`sum(1 for char in text if not char.isdigit() and not '一' <= char <= '龥')`. -/
def nonCjkNonDigitCount (text : List Char) : Nat :=
  (text.filter (fun c => !c.isDigit && !cjkChar c)).length

/-- Count of CJK ideograph characters:
`sum(1 for char in text if '一' <= char <= '龥')`. -/
def chineseCount (text : List Char) : Nat :=
  (text.filter cjkChar).length

/-- Embedding of `is_foreign_language` (src/__init__.py lines 79-86). -/
def is_foreign_language (text : List Char) : Bool :=
  if text.length ≤ 5 then false
  else if text.any kanaChar then true
  else if nonDigitCount text = 0 then false
  else decide ((nonCjkNonDigitCount text : ℚ) / (nonDigitCount text : ℚ) ≥ 0.8)

/-- Embedding of `is_mostly_chinese` (src/__init__.py lines 88-91). -/
def is_mostly_chinese (text : List Char) : Bool :=
  if text.length < 2 then false
  else decide ((chineseCount text : ℚ) / (text.length : ℚ) ≥ 0.6)

/-- Python `str.strip` (left half): drop leading whitespace. -/
def trimLeftChars (s : List Char) : List Char :=
  s.dropWhile Char.isWhitespace

/-- Python `str.strip` (right half): drop trailing whitespace. -/
def trimRightChars (s : List Char) : List Char :=
  (s.reverse.dropWhile Char.isWhitespace).reverse

/-- Python `str.strip`: drop whitespace from both ends. -/
def trimChars (s : List Char) : List Char :=
  trimRightChars (trimLeftChars s)

/-- Match a fixed lower-case pattern case-insensitively at the head of `s`,
returning the remainder on success (models a literal alternative of the
regex with `re.IGNORECASE`). -/
def stripPrefixCI : List Char → List Char → Option (List Char)
  | [], s => some s
  | _ :: _, [] => none
  | p :: ps, c :: cs => if c.toLower = p then stripPrefixCI ps cs else none

/-- The literal `http://` alternative of `URL_PATTERN`. -/
def httpPat : List Char := String.data "http://"

/-- The literal `https://` alternative of `URL_PATTERN`. -/
def httpsPat : List Char := String.data "https://"

/-- The literal `www.` alternative of `URL_PATTERN`. -/
def wwwPat : List Char := String.data "www."

/-- Does one alternative match at the head of `s`, followed by at least one
non-whitespace character (the regex `\S+`)? -/
def matchOne (pat s : List Char) : Bool :=
  match stripPrefixCI pat s with
  | some (c :: _) => !c.isWhitespace
  | _ => false

/-- Does `URL_PATTERN` = `(https?://|www\.)\S+` (IGNORECASE) match at the
head of `s`? -/
def urlFromHere (s : List Char) : Bool :=
  matchOne httpPat s || matchOne httpsPat s || matchOne wwwPat s

/-- Embedding of `URL_PATTERN.search(text)`: does the pattern match at some
position of `text`? (src/__init__.py line 29). -/
def containsUrl : List Char → Bool
  | [] => false
  | c :: rest => urlFromHere (c :: rest) || containsUrl rest

/-- Association-list lookup, modelling Python `dict.get(key)`. -/
def dictFind {α : Type} : List (String × α) → String → Option α
  | [], _ => none
  | (k, v) :: rest, key => if k = key then some v else dictFind rest key

/-- Python `settings.get(mode)` truthiness: a missing key or a stored
`False` both count as false. -/
def dGet (d : List (String × Bool)) (k : String) : Bool :=
  (dictFind d k).getD false

/-- Python `group_settings.get(group_id, \x7b\x7d)`: the per-group flag
dict, defaulting to the empty dict. -/
def settingsFor (group_settings : List (String × List (String × Bool)))
    (gid : String) : List (String × Bool) :=
  (dictFind group_settings gid).getD []

/-- Origin of a message: direct chat, or a group with its numeric id. -/
inductive Origin where
  | direct
  | group (gid : Nat)
deriving DecidableEq

/-- The parts of a platform message event the plugin reads: numeric sender
id, origin, and the plain-text content. -/
structure MessageEvent where
  user_id : Nat
  origin : Origin
  plaintext : List Char
deriving DecidableEq

/-- The decision taken by the automatic processor for one message
(design-note style: the host performs the actual network call / send). -/
inductive Action where
  | noAction
  | sendText (t : List Char)
  | translate (text : List Char) (target_lang : String)
deriving DecidableEq

/-- Embedding of `not_a_command_rule` (src/__init__.py lines 94-95):
`not event.get_plaintext().strip().startswith(('/', '!'))`. -/
def not_a_command_rule (plaintext : List Char) : Bool :=
  match trimChars plaintext with
  | [] => true
  | c :: _ => !(c == '/' || c == '!')

/-- The group branch of `handle_language_processing`
(src/__init__.py lines 123-136), given the settings dict looked up for the
group: `standard` + foreign text translates with default target, else
`cte` + mostly-Chinese text translates to `"en"`, else `standard` runs the
script converter and sends only a differing result. -/
def group_dispatch (conv : List Char → List Char)
    (settings : List (String × Bool)) (text : List Char) : Action :=
  if settings = [] then .noAction
  else if dGet settings "standard" && is_foreign_language text then
    .translate text "auto"
  else if dGet settings "cte" && is_mostly_chinese text then
    .translate text "en"
  else if dGet settings "standard" then
    let converted_text := conv text
    if text = converted_text then .noAction else .sendText converted_text
  else .noAction

/-- Embedding of the handler body `handle_language_processing`
(src/__init__.py lines 104-136).  `conv` is the external OpenCC
traditional-to-simplified converter. -/
def handle_language_processing (conv : List Char → List Char)
    (user_blacklist : List String)
    (group_settings : List (String × List (String × Bool)))
    (event : MessageEvent) : Action :=
  if user_blacklist.contains (toString event.user_id) then .noAction
  else
    let original_text := trimChars event.plaintext
    if original_text = [] then .noAction
    else if containsUrl original_text then .noAction
    else
      match event.origin with
      | .direct =>
        if is_foreign_language original_text then .translate original_text "auto"
        else
          let converted_text := conv original_text
          if original_text = converted_text then .noAction
          else .sendText converted_text
      | .group gid =>
        group_dispatch conv (settingsFor group_settings (toString gid)) original_text

/-- The registered automatic processor: nonebot evaluates the rule
`not_a_command_rule` first and only then runs the handler
(src/__init__.py line 102). -/
def language_processor (conv : List Char → List Char)
    (user_blacklist : List String)
    (group_settings : List (String × List (String × Bool)))
    (event : MessageEvent) : Action :=
  if not_a_command_rule event.plaintext then
    handle_language_processing conv user_blacklist group_settings event
  else .noAction

/-- One side (`source` / `target`) of the translation API payload. -/
structure ApiSide where
  type_desc : Option String
  text : Option String
deriving DecidableEq

/-- The `data` object of the translation API payload.  A Python-falsy
(absent or empty) `data` value is modelled as `none` at the ApiResponse
level, so an `ApiData` here always stands for a truthy dict. -/
structure ApiData where
  source : Option ApiSide
  target : Option ApiSide
deriving DecidableEq

/-- The decoded JSON body of the translation API response. -/
structure ApiResponse where
  code : Option Int
  data : Option ApiData
deriving DecidableEq

/-- Outcome of the one outbound HTTP round trip: `exn` stands for any
raised exception (network error, timeout, `raise_for_status` on a
non-success HTTP status, JSON decode failure), all caught by the
`except Exception` clause; `body` is a decoded JSON response. -/
inductive NetResult where
  | exn
  | body (resp : ApiResponse)
deriving DecidableEq

/-- The fixed over-length message of `_do_translation`. -/
def tooLongMsg : String := "文本过长，请不要超过200个字符。"

/-- The formatted result block built by `_do_translation` on success
(src/__init__.py lines 71-75). -/
def formatTranslation (text : List Char) (d : ApiData) : String :=
  let source := d.source.getD ⟨none, none⟩
  let target := d.target.getD ⟨none, none⟩
  "原文 (" ++ source.type_desc.getD "未知" ++ "):\n" ++
    source.text.getD (String.mk text) ++ "\n" ++
    "--------------------" ++ "\n" ++
    "译文 (" ++ target.type_desc.getD "未知" ++ "):\n" ++
    target.text.getD "翻译失败"

/-- Embedding of `_do_translation` (src/__init__.py lines 61-77).  The
first component records whether the outbound HTTP request was attempted;
the second is the returned value (`none` = Python `None`). -/
def _do_translation (net : NetResult) (text : List Char)
    (target_lang : String) : Bool × Option String :=
  if text.length > 200 then (false, some tooLongMsg)
  else if text = [] then (false, none)
  else
    match net with
    | .exn => (true, none)
    | .body resp =>
      match resp.data with
      | some d =>
        if resp.code = some 200 then (true, some (formatTranslation text d))
        else (true, none)
      | none => (true, none)

/-- Reply of the manual `翻译` / `fy` command handler. -/
inductive ManualReply where
  | usage
  | urlRefusal
  | sent (t : String)
  | failed
deriving DecidableEq

/-- The effective text of the manual command: the replied-to message's
text if the command was a reply, else the argument text, stripped
(src/__init__.py lines 145-146). -/
def manualText (arg_text : List Char) (reply_text : Option (List Char)) :
    List Char :=
  trimChars (reply_text.getD arg_text)

/-- Embedding of `handle_manual_translation` (src/__init__.py lines
143-153).  The blacklist and sender id are in scope in the source (as the
global `user_blacklist` and `event.user_id`) but never consulted; the
first component records whether the outbound HTTP request was attempted. -/
def handle_manual_translation (net : NetResult)
    (user_blacklist : List String) (user_id : Nat)
    (arg_text : List Char) (reply_text : Option (List Char)) :
    Bool × ManualReply :=
  let text := manualText arg_text reply_text
  if text = [] then (false, .usage)
  else if containsUrl text then (false, .urlRefusal)
  else
    let res := _do_translation net text "auto"
    match res.2 with
    | some r => (res.1, .sent r)
    | none => (res.1, .failed)

/-! ### Rational-threshold bridge lemmas

The source compares float ratios (`>= 0.8`, `>= 0.6`); the embedding uses
exact rational arithmetic, and these lemmas restate the comparisons as
natural-number inequalities so that concrete instances are decidable. -/

theorem ratio_ge_four_fifths {a b : ℕ} (hb : b ≠ 0) :
    ((a : ℚ) / (b : ℚ) ≥ 0.8) ↔ 4 * b ≤ 5 * a := by
  have hb' : (0 : ℚ) < (b : ℚ) := by exact_mod_cast Nat.pos_of_ne_zero hb
  rw [ge_iff_le, show (0.8 : ℚ) = 4 / 5 by norm_num,
    div_le_div_iff (by norm_num) hb']
  constructor
  · intro h
    have h2 : (4 * b : ℚ) ≤ (5 * a : ℚ) := by linarith
    exact_mod_cast h2
  · intro h
    have h2 : (4 * b : ℚ) ≤ (5 * a : ℚ) := by exact_mod_cast h
    linarith

theorem ratio_ge_three_fifths {a b : ℕ} (hb : b ≠ 0) :
    ((a : ℚ) / (b : ℚ) ≥ 0.6) ↔ 3 * b ≤ 5 * a := by
  have hb' : (0 : ℚ) < (b : ℚ) := by exact_mod_cast Nat.pos_of_ne_zero hb
  rw [ge_iff_le, show (0.6 : ℚ) = 3 / 5 by norm_num,
    div_le_div_iff (by norm_num) hb']
  constructor
  · intro h
    have h2 : (3 * b : ℚ) ≤ (5 * a : ℚ) := by linarith
    exact_mod_cast h2
  · intro h
    have h2 : (3 * b : ℚ) ≤ (5 * a : ℚ) := by exact_mod_cast h
    linarith

/-- Decidable normal form of `is_foreign_language`. -/
theorem is_foreign_language_eq_decide (text : List Char) :
    is_foreign_language text =
      (decide (5 < text.length) &&
        (text.any kanaChar ||
          (decide (nonDigitCount text ≠ 0) &&
            decide (4 * nonDigitCount text ≤ 5 * nonCjkNonDigitCount text)))) := by
  unfold is_foreign_language
  by_cases hlen : text.length ≤ 5
  · rw [if_pos hlen]
    have h5 : ¬ 5 < text.length := by omega
    simp [h5]
  · rw [if_neg hlen]
    have h5 : 5 < text.length := by omega
    by_cases hkana : text.any kanaChar
    · simp [hkana, h5]
    · rw [if_neg hkana]
      by_cases hcnt : nonDigitCount text = 0
      · simp [hcnt, hkana, h5]
      · rw [if_neg hcnt]
        simp only [h5, decide_True, Bool.true_and, hkana, Bool.false_or, hcnt,
          decide_not, decide_False, Bool.not_false, Bool.true_and]
        rw [decide_eq_decide]
        exact ratio_ge_four_fifths hcnt

/-- Decidable normal form of `is_mostly_chinese`. -/
theorem is_mostly_chinese_eq_decide (text : List Char) :
    is_mostly_chinese text =
      (decide (2 ≤ text.length) &&
        decide (3 * text.length ≤ 5 * chineseCount text)) := by
  unfold is_mostly_chinese
  by_cases hlen : text.length < 2
  · rw [if_pos hlen]
    have h2 : ¬ 2 ≤ text.length := by omega
    simp [h2]
  · rw [if_neg hlen]
    have h2 : 2 ≤ text.length := by omega
    have hb : text.length ≠ 0 := by omega
    simp only [h2, decide_True, Bool.true_and]
    rw [decide_eq_decide]
    exact ratio_ge_three_fifths hb

/-! ### URL-guard lemmas

The automatic and manual handlers run `URL_PATTERN.search` on the
*stripped* text, while the claims speak about the raw message text; the
lemmas below show a URL match survives stripping, because every character
of a match (pattern prefix plus its first `\S` character) is
non-whitespace. -/

/-- A character of `s` matched case-insensitively against a pattern
character `p` satisfies `c.toLower = p`. -/
def PatMatch (pat m : List Char) : Prop :=
  List.Forall₂ (fun p c => c.toLower = p) pat m

/-- The characters occurring in the three URL pattern alternatives. -/
def urlPatChars : List Char := ['h', 't', 'p', 's', ':', '/', 'w', '.']

theorem containsUrl_iff_suffix (s : List Char) :
    containsUrl s = true ↔ ∃ t, t <:+ s ∧ urlFromHere t = true := by
  induction s with
  | nil =>
    constructor
    · intro h; exact absurd h (by decide)
    · rintro ⟨t, ht, hurl⟩
      rw [List.suffix_nil.mp ht] at hurl
      exact absurd hurl (by decide)
  | cons c rest ih =>
    constructor
    · intro h
      rcases Bool.or_eq_true _ _ |>.mp h with h1 | h2
      · exact ⟨c :: rest, List.suffix_rfl, h1⟩
      · obtain ⟨t, ⟨a, ha⟩, hurl⟩ := ih.mp h2
        exact ⟨t, ⟨c :: a, by rw [List.cons_append, ha]⟩, hurl⟩
    · rintro ⟨t, ht, hurl⟩
      rcases List.suffix_cons_iff.mp ht with h1 | h2
      · subst h1
        show (urlFromHere (c :: rest) || containsUrl rest) = true
        rw [hurl, Bool.true_or]
      · show (urlFromHere (c :: rest) || containsUrl rest) = true
        rw [ih.mpr ⟨t, h2, hurl⟩, Bool.or_true]

theorem stripPrefixCI_eq_some {pat s r : List Char}
    (h : stripPrefixCI pat s = some r) : ∃ m, s = m ++ r ∧ PatMatch pat m := by
  induction pat generalizing s with
  | nil =>
    refine ⟨[], ?_, List.Forall₂.nil⟩
    simpa [stripPrefixCI] using h
  | cons p ps ih =>
    cases s with
    | nil => exact absurd h (by simp [stripPrefixCI])
    | cons c cs =>
      rw [stripPrefixCI] at h
      by_cases hc : c.toLower = p
      · rw [if_pos hc] at h
        obtain ⟨m, hm, hf⟩ := ih h
        exact ⟨c :: m, by rw [List.cons_append, hm], List.Forall₂.cons hc hf⟩
      · rw [if_neg hc] at h
        exact absurd h (by simp)

theorem stripPrefixCI_of_patMatch {pat m : List Char} (h : PatMatch pat m)
    (r : List Char) : stripPrefixCI pat (m ++ r) = some r := by
  induction h with
  | nil => rfl
  | cons hrel _ ih =>
    rw [List.cons_append, stripPrefixCI, if_pos hrel, ih]

theorem matchOne_eq_true {pat s : List Char} (h : matchOne pat s = true) :
    ∃ m c r, s = m ++ c :: r ∧ PatMatch pat m ∧ c.isWhitespace = false := by
  rw [matchOne] at h
  rcases hs : stripPrefixCI pat s with _ | rest
  · rw [hs] at h; exact absurd h (by simp)
  · rw [hs] at h
    cases rest with
    | nil => exact absurd h (by simp)
    | cons c cr =>
      obtain ⟨m, hm, hf⟩ := stripPrefixCI_eq_some hs
      exact ⟨m, c, cr, hm, hf, by simpa using h⟩

theorem matchOne_append {pat m : List Char} {c : Char}
    (hf : PatMatch pat m) (hc : c.isWhitespace = false) (r : List Char) :
    matchOne pat (m ++ c :: r) = true := by
  rw [matchOne, stripPrefixCI_of_patMatch hf (c :: r)]
  simp [hc]

theorem patMatch_not_ws {pat m : List Char}
    (hpat : ∀ p ∈ pat, p ∈ urlPatChars) (hf : PatMatch pat m) :
    ∀ x ∈ m, x.isWhitespace = false := by
  induction hf with
  | nil => intro x hx; exact absurd hx (List.not_mem_nil x)
  | @cons p c ps ms hrel _ ih =>
    intro x hx
    rcases List.mem_cons.mp hx with hx1 | hx2
    · subst hx1
      cases hw : x.isWhitespace
      · rfl
      · exfalso
        have hx4 : ((x = ' ' ∨ x = '\t') ∨ x = '\r') ∨ x = '\n' := by
          simpa [Char.isWhitespace] using hw
        have hp : p ∈ urlPatChars := hpat p (List.mem_cons_self p ps)
        rcases hx4 with ((h4 | h4) | h4) | h4 <;> subst h4 <;> subst hrel <;>
          exact absurd hp (by decide)
    · exact ih (fun q hq => hpat q (List.mem_cons_of_mem p hq)) x hx2

theorem urlFromHere_decomp {s : List Char} (h : urlFromHere s = true) :
    ∃ pat m c r, (pat = httpPat ∨ pat = httpsPat ∨ pat = wwwPat) ∧
      s = m ++ c :: r ∧ PatMatch pat m ∧
      (∀ x ∈ m, x.isWhitespace = false) ∧ c.isWhitespace = false ∧ m ≠ [] := by
  have hcases : matchOne httpPat s = true ∨ matchOne httpsPat s = true ∨
      matchOne wwwPat s = true := by
    simpa [urlFromHere, Bool.or_eq_true, or_assoc] using h
  have main : ∀ pat : List Char,
      pat = httpPat ∨ pat = httpsPat ∨ pat = wwwPat →
      matchOne pat s = true →
      ∃ m c r, s = m ++ c :: r ∧ PatMatch pat m ∧
        (∀ x ∈ m, x.isWhitespace = false) ∧ c.isWhitespace = false ∧ m ≠ [] := by
    intro pat hpat hm
    obtain ⟨m, c, r, hs, hf, hc⟩ := matchOne_eq_true hm
    have hchars : ∀ p ∈ pat, p ∈ urlPatChars := by
      rcases hpat with h1 | h1 | h1 <;> subst h1 <;> decide
    have hne : m ≠ [] := by
      intro hnil
      subst hnil
      have : pat = [] := (List.forall₂_nil_right_iff.mp hf)
      rcases hpat with h1 | h1 | h1 <;> subst h1 <;> exact absurd this (by decide)
    exact ⟨m, c, r, hs, hf, patMatch_not_ws hchars hf, hc, hne⟩
  rcases hcases with h1 | h1 | h1
  · obtain ⟨m, c, r, hs, hf, hws, hc, hne⟩ := main httpPat (Or.inl rfl) h1
    exact ⟨httpPat, m, c, r, Or.inl rfl, hs, hf, hws, hc, hne⟩
  · obtain ⟨m, c, r, hs, hf, hws, hc, hne⟩ := main httpsPat (Or.inr (Or.inl rfl)) h1
    exact ⟨httpsPat, m, c, r, Or.inr (Or.inl rfl), hs, hf, hws, hc, hne⟩
  · obtain ⟨m, c, r, hs, hf, hws, hc, hne⟩ := main wwwPat (Or.inr (Or.inr rfl)) h1
    exact ⟨wwwPat, m, c, r, Or.inr (Or.inr rfl), hs, hf, hws, hc, hne⟩

theorem urlFromHere_recompose {pat m : List Char} {c : Char}
    (hpat : pat = httpPat ∨ pat = httpsPat ∨ pat = wwwPat)
    (hf : PatMatch pat m) (hc : c.isWhitespace = false) (r : List Char) :
    urlFromHere (m ++ c :: r) = true := by
  rw [urlFromHere]
  rcases hpat with h1 | h1 | h1 <;> subst h1 <;>
    rw [matchOne_append hf hc r] <;> simp

theorem trimRight_decomp (s : List Char) :
    ∃ w, s = trimRightChars s ++ w ∧ ∀ x ∈ w, x.isWhitespace = true := by
  refine ⟨(s.reverse.takeWhile Char.isWhitespace).reverse, ?_, ?_⟩
  · conv_lhs => rw [← s.reverse_reverse,
      ← List.takeWhile_append_dropWhile (p := Char.isWhitespace) (l := s.reverse)]
    rw [List.reverse_append, trimRightChars]
  · intro x hx
    exact List.mem_takeWhile_imp (List.mem_reverse.mp hx)

theorem trimLeft_decomp (s : List Char) :
    ∃ w, s = w ++ trimLeftChars s ∧ ∀ x ∈ w, x.isWhitespace = true := by
  refine ⟨s.takeWhile Char.isWhitespace, ?_, ?_⟩
  · rw [trimLeftChars, List.takeWhile_append_dropWhile]
  · intro x hx
    exact List.mem_takeWhile_imp hx

theorem suffix_trimLeft_of_url {s t : List Char} (hsuf : t <:+ s)
    (hurl : urlFromHere t = true) : t <:+ trimLeftChars s := by
  obtain ⟨a, ha⟩ := hsuf
  obtain ⟨w, hw, hws⟩ := trimLeft_decomp s
  obtain ⟨pat, m, c, r, _, hs, hf, hmws, _, hmne⟩ := urlFromHere_decomp hurl
  obtain ⟨x, m', hm⟩ : ∃ x m', m = x :: m' := by
    cases m with
    | nil => exact absurd rfl hmne
    | cons x m' => exact ⟨x, m', rfl⟩
  have hxws : x.isWhitespace = false := hmws x (by rw [hm]; exact List.mem_cons_self x m')
  have heq : w ++ trimLeftChars s = a ++ t := by rw [← hw, ha]
  rcases List.append_eq_append_iff.mp heq with ⟨w', _, hsplit⟩ | ⟨a', ha', hsplit⟩
  · exact ⟨w', hsplit.symm⟩
  · cases a' with
    | nil =>
      rw [List.nil_append] at hsplit
      rw [← hsplit]
    | cons y ys =>
      exfalso
      have hyw : y ∈ w := by rw [ha']; simp
      have hyws : y.isWhitespace = true := hws y hyw
      have : t = y :: (ys ++ trimLeftChars s) := by rw [hsplit, List.cons_append]
      rw [hs, hm, List.cons_append] at this
      have hxy : x = y := (List.cons.injEq _ _ _ _ |>.mp this).1
      rw [hxy, hyws] at hxws
      exact absurd hxws (by simp)

theorem suffix_trimRight_of_url {s t : List Char} (hsuf : t <:+ s)
    (hurl : urlFromHere t = true) :
    ∃ u, u <:+ trimRightChars s ∧ urlFromHere u = true := by
  obtain ⟨a, ha⟩ := hsuf
  obtain ⟨w, hw, hws⟩ := trimRight_decomp s
  obtain ⟨pat, m, c, r, hpat, hs, hf, _, hcws, _⟩ := urlFromHere_decomp hurl
  have heq : (a ++ m ++ [c]) ++ r = trimRightChars s ++ w := by
    rw [← hw, ← ha, hs]
    simp [List.append_assoc]
  rcases List.append_eq_append_iff.mp heq with ⟨x, hv, hr⟩ | ⟨y, hy, hwy⟩
  · refine ⟨m ++ c :: x, ?_, urlFromHere_recompose hpat hf hcws x⟩
    refine ⟨a, ?_⟩
    rw [hv]
    simp [List.append_assoc]
  · cases y with
    | nil =>
      rw [List.append_nil] at hy
      refine ⟨m ++ c :: [], ?_, urlFromHere_recompose hpat hf hcws []⟩
      refine ⟨a, ?_⟩
      rw [← hy]
      simp [List.append_assoc]
    | cons y0 ys =>
      exfalso
      rcases List.eq_nil_or_concat (y0 :: ys) with hnil | ⟨L, b, hLb⟩
      · exact absurd hnil (by simp)
      · rw [hLb] at hy hwy
        have hy2 : (trimRightChars s ++ L) ++ [b] = (a ++ m) ++ [c] := by
          rw [List.append_assoc, ← List.concat_eq_append, ← hy]
        have hbc : b = c := by
          have := (List.append_inj' hy2 rfl).2
          simpa using this
        have hbw : b ∈ w := by
          rw [hwy, List.concat_eq_append]
          simp
        have := hws b hbw
        rw [hbc, hcws] at this
        exact absurd this (by simp)

theorem containsUrl_trimChars {s : List Char} (h : containsUrl s = true) :
    containsUrl (trimChars s) = true := by
  obtain ⟨t, hsuf, hurl⟩ := (containsUrl_iff_suffix s).mp h
  have h1 : t <:+ trimLeftChars s := suffix_trimLeft_of_url hsuf hurl
  obtain ⟨u, h2, hurl2⟩ := suffix_trimRight_of_url h1 hurl
  exact (containsUrl_iff_suffix (trimChars s)).mpr ⟨u, h2, hurl2⟩

theorem containsUrl_ne_nil {s : List Char} (h : containsUrl s = true) :
    s ≠ [] := by
  intro hnil
  subst hnil
  exact absurd h (by decide)

/-- Reduction of `_do_translation` on a decoded response body. -/
theorem _do_translation_body (resp : ApiResponse) (text : List Char)
    (t : String) :
    _do_translation (NetResult.body resp) text t =
      if 200 < text.length then (false, some tooLongMsg)
      else if text = [] then (false, none)
      else
        match resp.data with
        | some d =>
          if resp.code = some 200 then (true, some (formatTranslation text d))
          else (true, none)
        | none => (true, none) := rfl

/-! ### Claim theorems -/

set_option maxRecDepth 16384

/-- C1: in group-message dispatch, with settings standard=false and
cte=true, every mostly-native text is translated with explicit target
"en", and script conversion is never performed for any message: the
dispatch result is always translate-to-"en" or no action, never a
converted send. -/
theorem claim_C1 (conv : List Char → List Char) (settings : List (String × Bool))
    (hne : settings ≠ []) (hstd : dGet settings "standard" = false)
    (hcte : dGet settings "cte" = true) :
    (∀ text, is_mostly_chinese text = true →
      group_dispatch conv settings text = Action.translate text "en") ∧
    (∀ text, group_dispatch conv settings text = Action.translate text "en" ∨
      group_dispatch conv settings text = Action.noAction) := by
  constructor
  · intro text hmc
    simp [group_dispatch, hne, hstd, hcte, hmc]
  · intro text
    cases hmc : is_mostly_chinese text
    · right
      simp [group_dispatch, hne, hstd, hcte, hmc]
    · left
      simp [group_dispatch, hne, hstd, hcte, hmc]

/-- C1 witness: the spec's test case, settings standard=false / cte=true
and the native-dominant text 你好世界啊. -/
theorem claim_C1_witness :
    group_dispatch id [("standard", false), ("cte", true)]
        (String.data "你好世界啊") =
      Action.translate (String.data "你好世界啊") "en" :=
  (claim_C1 id [("standard", false), ("cte", true)]
      (by decide) (by decide) (by decide)).1
    (String.data "你好世界啊") (by rw [is_mostly_chinese_eq_decide]; decide)

/-- C2 counterexample: the kana-bearing text ねこ猫 has length 3 ≤ 5, so
`is_foreign_language` returns false even though it contains kana — the
length gate runs before the kana check, refuting "regardless of the
text's length". -/
theorem claim_C2_counterexample :
    (String.data "ねこ猫").any kanaChar = true ∧
      is_foreign_language (String.data "ねこ猫") = false := by
  exact ⟨by decide, by rw [is_foreign_language_eq_decide]; decide⟩

/-- C2 (amended): for every text of length greater than 5 containing at
least one character in the Hiragana/Katakana block U+3040-U+30FF,
`is_foreign_language` returns true regardless of the non-CJK character
ratio. -/
theorem claim_C2 (text : List Char) (hlen : 5 < text.length)
    (hkana : text.any kanaChar = true) :
    is_foreign_language text = true := by
  rw [is_foreign_language, if_neg (by omega : ¬ text.length ≤ 5), if_pos hkana]

/-- C2 witness: a 6-character kana-bearing text. -/
theorem claim_C2_witness :
    5 < (String.data "ねこ猫猫猫猫").length ∧
      is_foreign_language (String.data "ねこ猫猫猫猫") = true :=
  ⟨by decide, claim_C2 (String.data "ねこ猫猫猫猫") (by decide) (by decide)⟩

/-- C3: texts of length at most 5 are never foreign; for longer kana-free
texts, zero non-digit characters give false, and otherwise the result is
true exactly when the ratio of non-CJK-non-digit characters to non-digit
characters is at least 0.8. -/
theorem claim_C3 (text : List Char) :
    (text.length ≤ 5 → is_foreign_language text = false) ∧
    (5 < text.length → text.any kanaChar = false →
      ((nonDigitCount text = 0 → is_foreign_language text = false) ∧
       (nonDigitCount text ≠ 0 →
         (is_foreign_language text = true ↔
           (nonCjkNonDigitCount text : ℚ) / (nonDigitCount text : ℚ) ≥ 0.8)))) := by
  refine ⟨fun hlen => ?_, fun hlen hkana => ⟨fun hcnt => ?_, fun hcnt => ?_⟩⟩
  · rw [is_foreign_language, if_pos hlen]
  · have h1 : ¬ text.length ≤ 5 := by omega
    simp [is_foreign_language, h1, hkana, hcnt]
  · have h1 : ¬ text.length ≤ 5 := by omega
    simp [is_foreign_language, h1, hkana, hcnt]

/-- C3 witness: the spec's two examples, the all-digit string (zero
countable characters) and "hello world123" (ratio 1.0). -/
theorem claim_C3_witness :
    is_foreign_language (String.data "1234567890") = false ∧
      is_foreign_language (String.data "hello world123") = true := by
  constructor
  · exact ((claim_C3 (String.data "1234567890")).2 (by decide) (by decide)).1
      (by decide)
  · refine (((claim_C3 (String.data "hello world123")).2 (by decide)
      (by decide)).2 (by decide)).mpr ?_
    have h1 : nonCjkNonDigitCount (String.data "hello world123") = 11 := by decide
    have h2 : nonDigitCount (String.data "hello world123") = 11 := by decide
    rw [h1, h2]
    norm_num

/-- C4: texts of length below 2 are never mostly Chinese; otherwise the
result is true exactly when the ratio of CJK-ideograph characters to all
characters is at least 0.6. -/
theorem claim_C4 (text : List Char) :
    (text.length < 2 → is_mostly_chinese text = false) ∧
    (2 ≤ text.length →
      (is_mostly_chinese text = true ↔
        (chineseCount text : ℚ) / (text.length : ℚ) ≥ 0.6)) := by
  constructor
  · intro hlen
    rw [is_mostly_chinese, if_pos hlen]
  · intro hlen
    have h1 : ¬ text.length < 2 := by omega
    simp [is_mostly_chinese, h1]

/-- C4 witness: the spec's examples 你好 (ratio 1), 你好hello (ratio 2/7)
and the single character "a". -/
theorem claim_C4_witness :
    is_mostly_chinese (String.data "你好") = true ∧
      is_mostly_chinese (String.data "你好hello") = false ∧
      is_mostly_chinese (String.data "a") = false := by
  refine ⟨?_, ?_, (claim_C4 (String.data "a")).1 (by decide)⟩
  · refine ((claim_C4 (String.data "你好")).2 (by decide)).mpr ?_
    have h1 : chineseCount (String.data "你好") = 2 := by decide
    have h2 : (String.data "你好").length = 2 := by decide
    rw [h1, h2]
    norm_num
  · have hiff := (claim_C4 (String.data "你好hello")).2 (by decide)
    have hnot : ¬ ((chineseCount (String.data "你好hello") : ℚ) /
        ((String.data "你好hello").length : ℚ) ≥ 0.6) := by
      have h1 : chineseCount (String.data "你好hello") = 2 := by decide
      have h2 : (String.data "你好hello").length = 7 := by decide
      rw [h1, h2]
      norm_num
    cases hb : is_mostly_chinese (String.data "你好hello")
    · rfl
    · exact absurd (hiff.mp hb) hnot

/-- C5 counterexample: a 202-character input containing a URL; the manual
command replies with the URL refusal, not the fixed "too long" message,
refuting the claim's universal statement about the manual command. -/
theorem claim_C5_counterexample :
    200 < (List.replicate 194 'a' ++ String.data "http://x").length ∧
    (handle_manual_translation NetResult.exn [] 1
        (List.replicate 194 'a' ++ String.data "http://x") none).2 =
      ManualReply.urlRefusal ∧
    ManualReply.urlRefusal ≠ ManualReply.sent tooLongMsg := by
  exact ⟨by decide, by decide, by decide⟩

/-- C5 (amended): the translation primitive returns the fixed "too long"
message without attempting the outbound HTTP call for every text longer
than 200 characters; the manual translate command replies with that fixed
response when its stripped effective text is longer than 200 characters
and contains no URL match; and for every over-length effective text the
manual command never performs the outbound call. -/
theorem claim_C5 :
    (∀ (net : NetResult) (text : List Char) (target_lang : String),
      200 < text.length →
      _do_translation net text target_lang = (false, some tooLongMsg)) ∧
    (∀ (net : NetResult) (bl : List String) (uid : Nat)
      (arg : List Char) (rt : Option (List Char)),
      200 < (manualText arg rt).length →
      containsUrl (manualText arg rt) = false →
      handle_manual_translation net bl uid arg rt =
        (false, ManualReply.sent tooLongMsg)) ∧
    (∀ (net : NetResult) (bl : List String) (uid : Nat)
      (arg : List Char) (rt : Option (List Char)),
      200 < (manualText arg rt).length →
      (handle_manual_translation net bl uid arg rt).1 = false) := by
  have key : ∀ (net : NetResult) (text : List Char) (t : String),
      200 < text.length →
      _do_translation net text t = (false, some tooLongMsg) := by
    intro net text t h
    unfold _do_translation
    rw [if_pos h]
  refine ⟨key, ?_, ?_⟩
  · intro net bl uid arg rt hlen hcu
    have hne : manualText arg rt ≠ [] := by
      intro h
      rw [h] at hlen
      exact absurd hlen (by decide)
    simp only [handle_manual_translation]
    rw [if_neg hne, if_neg (by simp [hcu]), key net (manualText arg rt) "auto" hlen]
  · intro net bl uid arg rt hlen
    have hne : manualText arg rt ≠ [] := by
      intro h
      rw [h] at hlen
      exact absurd hlen (by decide)
    simp only [handle_manual_translation]
    rw [if_neg hne]
    cases hcu : containsUrl (manualText arg rt)
    · rw [if_neg (by simp), key net (manualText arg rt) "auto" hlen]
    · rw [if_pos rfl]

/-- C5 witness: 201 repeated letters, no URL: the primitive and the
manual command both answer the fixed message with no outbound call. -/
theorem claim_C5_witness :
    _do_translation NetResult.exn (List.replicate 201 'a') "auto" =
      (false, some tooLongMsg) ∧
    handle_manual_translation NetResult.exn [] 1 (List.replicate 201 'a') none =
      (false, ManualReply.sent tooLongMsg) :=
  ⟨claim_C5.1 NetResult.exn (List.replicate 201 'a') "auto" (by decide),
   claim_C5.2.1 NetResult.exn [] 1 (List.replicate 201 'a') none
     (by decide) (by decide)⟩

/-- C6: for every failure outcome of the outbound call — a raised
exception (network error, timeout, non-success HTTP status, JSON decode
failure, all modelled by `NetResult.exn`), a service code other than 200,
or an absent data payload — the translation primitive returns absence.
The length bound excludes the over-length branch, which answers before
any call is made. -/
theorem claim_C6 (net : NetResult) (text : List Char) (target_lang : String)
    (hlen : text.length ≤ 200)
    (hfail : net = NetResult.exn ∨
      ∃ resp, net = NetResult.body resp ∧
        (resp.code ≠ some 200 ∨ resp.data = none)) :
    (_do_translation net text target_lang).2 = none := by
  rcases hfail with h | ⟨resp, hb, hor⟩
  · subst h
    unfold _do_translation
    rw [if_neg (by omega : ¬ 200 < text.length)]
    by_cases hemp : text = []
    · rw [if_pos hemp]
    · rw [if_neg hemp]
  · subst hb
    rw [_do_translation_body, if_neg (by omega : ¬ 200 < text.length)]
    by_cases hemp : text = []
    · rw [if_pos hemp]
    · rw [if_neg hemp]
      cases hd : resp.data with
      | none => rfl
      | some d =>
        rcases hor with hc | hdn
        · show (if resp.code = some 200 then
              ((true : Bool), some (formatTranslation text d))
            else ((true : Bool), (none : Option String))).2 = none
          rw [if_neg hc]
        · rw [hd] at hdn
          exact absurd hdn (by simp)

/-- C6 witness: a network-level failure on a short text yields absence. -/
theorem claim_C6_witness :
    (_do_translation NetResult.exn (String.data "bonjour tout le monde")
        "auto").2 = none :=
  claim_C6 NetResult.exn (String.data "bonjour tout le monde") "auto"
    (by decide) (Or.inl rfl)

/-- C7: a message from a blacklisted sender produces no action from the
automatic processor, for any origin, text and group settings. -/
theorem claim_C7 (conv : List Char → List Char) (bl : List String)
    (gs : List (String × List (String × Bool))) (ev : MessageEvent)
    (h : bl.contains (toString ev.user_id) = true) :
    language_processor conv bl gs ev = Action.noAction := by
  rw [language_processor]
  by_cases hr : not_a_command_rule ev.plaintext = true
  · rw [if_pos hr, handle_language_processing, if_pos h]
  · rw [if_neg hr]

/-- C7 witness: a blacklisted sender with foreign text in a group with
standard enabled still gets no action. -/
theorem claim_C7_witness :
    language_processor id [toString 9]
        [(toString 5, [("standard", true)])]
        ⟨9, Origin.group 5, String.data "hello world"⟩ = Action.noAction :=
  claim_C7 id [toString 9] [(toString 5, [("standard", true)])]
    ⟨9, Origin.group 5, String.data "hello world"⟩ (by decide)

/-- C8: a group message whose group id has no stored settings entry
produces no action at all for any text. -/
theorem claim_C8 (conv : List Char → List Char) (bl : List String)
    (gs : List (String × List (String × Bool))) (ev : MessageEvent)
    (gid : Nat) (horig : ev.origin = Origin.group gid)
    (hset : dictFind gs (toString gid) = none) :
    language_processor conv bl gs ev = Action.noAction := by
  rw [language_processor]
  by_cases hr : not_a_command_rule ev.plaintext = true
  · rw [if_pos hr]
    simp only [handle_language_processing]
    by_cases hb : bl.contains (toString ev.user_id) = true
    · rw [if_pos hb]
    · rw [if_neg hb]
      by_cases hemp : trimChars ev.plaintext = []
      · rw [if_pos hemp]
      · rw [if_neg hemp]
        by_cases hurl : containsUrl (trimChars ev.plaintext) = true
        · rw [if_pos hurl]
        · rw [if_neg hurl, horig]
          show group_dispatch conv (settingsFor gs (toString gid))
            (trimChars ev.plaintext) = Action.noAction
          have hsf : settingsFor gs (toString gid) = [] := by
            rw [settingsFor, hset]
            rfl
          rw [hsf, group_dispatch]
          simp
  · rw [if_neg hr]

/-- C8 witness: foreign text in a group with no settings entry. -/
theorem claim_C8_witness :
    language_processor id [] [] ⟨1, Origin.group 42, String.data "hello world"⟩ =
      Action.noAction :=
  claim_C8 id [] [] ⟨1, Origin.group 42, String.data "hello world"⟩ 42 rfl rfl

/-- C9: a message whose text contains a case-insensitive URL match
(http://, https:// or www. followed by a non-whitespace character) gets
no automatic action, and the manual translate command on such text
answers the refusal message without attempting the call. -/
theorem claim_C9 :
    (∀ (conv : List Char → List Char) (bl : List String)
      (gs : List (String × List (String × Bool))) (ev : MessageEvent),
      containsUrl ev.plaintext = true →
      language_processor conv bl gs ev = Action.noAction) ∧
    (∀ (net : NetResult) (bl : List String) (uid : Nat)
      (arg : List Char) (rt : Option (List Char)),
      containsUrl (rt.getD arg) = true →
      handle_manual_translation net bl uid arg rt =
        (false, ManualReply.urlRefusal)) := by
  constructor
  · intro conv bl gs ev hurl
    rw [language_processor]
    by_cases hr : not_a_command_rule ev.plaintext = true
    · rw [if_pos hr]
      simp only [handle_language_processing]
      by_cases hb : bl.contains (toString ev.user_id) = true
      · rw [if_pos hb]
      · rw [if_neg hb]
        have htrim : containsUrl (trimChars ev.plaintext) = true :=
          containsUrl_trimChars hurl
        have hne : trimChars ev.plaintext ≠ [] := containsUrl_ne_nil htrim
        rw [if_neg hne, if_pos htrim]
    · rw [if_neg hr]
  · intro net bl uid arg rt hurl
    simp only [handle_manual_translation, manualText]
    have htrim : containsUrl (trimChars (rt.getD arg)) = true :=
      containsUrl_trimChars hurl
    have hne : trimChars (rt.getD arg) ≠ [] := containsUrl_ne_nil htrim
    rw [if_neg hne, if_pos htrim]

/-- C9 witness: the spec's URL examples for the automatic processor and
for the manual command. -/
theorem claim_C9_witness :
    language_processor id [] []
        ⟨1, Origin.direct, String.data "check http://example.com now"⟩ =
      Action.noAction ∧
    handle_manual_translation NetResult.exn [] 1
        (String.data "check www.example.com") none =
      (false, ManualReply.urlRefusal) :=
  ⟨claim_C9.1 id [] []
      ⟨1, Origin.direct, String.data "check http://example.com now"⟩ (by decide),
   claim_C9.2 NetResult.exn [] 1 (String.data "check www.example.com") none
      (by decide)⟩

/-- C10: the manual translate command never consults the user blacklist:
for a blacklisted sender its outcome is identical to the outcome with an
empty blacklist, and on valid non-URL text it still invokes the
translation primitive and replies from its result, while the automatic
processor answers the same sender with no action. -/
theorem claim_C10 (net : NetResult) (bl : List String) (uid : Nat)
    (arg : List Char) (rt : Option (List Char))
    (conv : List Char → List Char)
    (gs : List (String × List (String × Bool))) (ev : MessageEvent)
    (hbl : bl.contains (toString uid) = true) :
    (handle_manual_translation net bl uid arg rt =
      handle_manual_translation net [] uid arg rt) ∧
    (manualText arg rt ≠ [] → containsUrl (manualText arg rt) = false →
      handle_manual_translation net bl uid arg rt =
        ((_do_translation net (manualText arg rt) "auto").1,
          match (_do_translation net (manualText arg rt) "auto").2 with
          | some r => ManualReply.sent r
          | none => ManualReply.failed)) ∧
    (ev.user_id = uid → language_processor conv bl gs ev = Action.noAction) := by
  refine ⟨rfl, ?_, ?_⟩
  · intro hne hcu
    simp only [handle_manual_translation]
    rw [if_neg hne, if_neg (by simp [hcu])]
    cases (_do_translation net (manualText arg rt) "auto").2 <;> rfl
  · intro hev
    rw [language_processor]
    by_cases hr : not_a_command_rule ev.plaintext = true
    · rw [if_pos hr, handle_language_processing, hev, if_pos hbl]
    · rw [if_neg hr]

/-- C10 witness: a blacklisted sender's manual command still reaches the
primitive (outbound call attempted, failure reply sent), while the
automatic processor ignores the same sender. -/
theorem claim_C10_witness :
    handle_manual_translation NetResult.exn [toString 7] 7
        (String.data "hello world") none = (true, ManualReply.failed) ∧
    language_processor id [toString 7] []
        ⟨7, Origin.direct, String.data "hola"⟩ = Action.noAction := by
  have h := claim_C10 NetResult.exn [toString 7] 7 (String.data "hello world")
    none id [] ⟨7, Origin.direct, String.data "hola"⟩ (by decide)
  exact ⟨(h.2.1 (by decide) (by decide)).trans (by decide), h.2.2 rfl⟩

end Translate
